import Mathlib

/-!
Verification of the ygrep search engine core against its specification.

The Rust sources are shallowly embedded: pure functions become Lean
functions on `String`, `List` and `Rat` (machine floats are modelled as
exact rationals), fallible calls return `Except`, and the external
collaborators (the tantivy BM25 engine, the hnsw_rs ANN graph, the
embedding model, the filesystem) appear as explicit inputs of the
functions that consult them.  Character classification and lowercasing
are modelled with Lean's ASCII primitives, matching the Rust behaviour
on ASCII data.
-/

namespace Ygrep

/-- Error type from `ygrep-core/src/error.rs` (the variants constructed in
the sources under verification). -/
inductive YgrepError where
  | Io (msg : String)
  | Config (msg : String)
  | WorkspaceNotIndexed (path : String)
  | FileTooLarge (path : String) (size cap : Nat)
  | Search (msg : String)
deriving DecidableEq, Repr

deriving instance DecidableEq for Except

/-- Match type for a search hit (`MatchType` in `search/results.rs`). -/
inductive MatchType where
  | Text
  | Semantic
  | Hybrid
deriving DecidableEq, Repr, BEq

/-- A single search hit (`SearchHit` in `search/results.rs`).  Line numbers
are `Nat` for Rust `u64`, the score is an exact rational for Rust `f32`. -/
structure SearchHit where
  path : String
  line_start : Nat
  line_end : Nat
  snippet : String
  score : Rat
  is_chunk : Bool
  doc_id : String
  match_type : MatchType
deriving DecidableEq, Repr

/-- Result of a search operation (`SearchResult` in `search/results.rs`).
`query_time_ms` is wall-clock time in the source; the model always reports 0. -/
structure SearchResult where
  hits : List SearchHit
  total : Nat
  query_time_ms : Nat
  text_hits : Nat
  semantic_hits : Nat
deriving DecidableEq, Repr

/-- Search configuration (`SearchConfig` in `config.rs`), the fields read by
the searcher entry points. -/
structure SearchConfig where
  default_limit : Nat
  max_limit : Nat
  bm25_weight : Rat
  vector_weight : Rat
  min_score : Rat
deriving DecidableEq, Repr

/-- A stored tantivy document as the searcher retrieves it: the fields
extracted by `extract_text`/`extract_u64` in `search/searcher.rs`. -/
structure StoredDoc where
  path : String
  doc_id : String
  content : String
  line_start : Nat
  chunk_id : String
deriving DecidableEq, Repr

/-- Query-tokenization character class used by `Searcher::search`
(searcher.rs line 45): alphanumeric or underscore (ASCII model of Rust
`char::is_alphanumeric`). -/
def isWordChar (c : Char) : Bool := c.isAlphanum || c == '_'

/-- Rust `str::split` with a character predicate, on character lists:
pieces between separator characters, empty pieces included. -/
def splitOnPred (p : Char → Bool) : List Char → List (List Char)
  | [] => [[]]
  | c :: cs =>
    let r := splitOnPred p cs
    if p c then [] :: r
    else
      match r with
      | [] => [[c]]
      | h :: t => (c :: h) :: t

/-- The alphanumeric/underscore tokens of a query (searcher.rs lines 44-47):
split on non-word characters, keep the nonempty pieces. -/
def searchTerms (q : String) : List String :=
  ((splitOnPred (fun c => !isWordChar c) q.data).filter
    (fun l => !l.isEmpty)).map String.mk

/-- Rust `str::to_lowercase`, modelled charwise with Lean's ASCII
`Char.toLower`. -/
def lowerStr (s : String) : String := String.mk (s.data.map Char.toLower)

/-- Decidable substring test on character lists (used to model Rust
`str::contains` with a string pattern). -/
def subSeq (needle : List Char) : List Char → Bool
  | [] => needle.isEmpty
  | c :: cs => needle.isPrefixOf (c :: cs) || subSeq needle cs

/-- Rust `haystack.contains(&needle)` for strings. -/
def strContains (haystack needle : String) : Bool :=
  subSeq needle.toList haystack.toList

/-- The literal grep-like post-filter of `Searcher::search` (searcher.rs
line 91): `content.to_lowercase().contains(&query.to_lowercase())`. -/
def containsLower (content query : String) : Bool :=
  strContains (lowerStr content) (lowerStr query)

/-- Rust `str::lines`: split on a newline character, treating it as a
terminator (a trailing newline contributes no extra line and the empty
string has no lines; the model ignores `\r\n` normalization). -/
def rustLines (s : String) : List String :=
  let parts := splitOnPred (fun c => c == '\n') s.data
  (match parts.getLast? with
   | some [] => parts.dropLast
   | _ => parts).map String.mk

/-- Rust `str::split_whitespace`: whitespace-separated nonempty pieces. -/
def splitWhitespace (s : String) : List String :=
  ((splitOnPred (fun c => c.isWhitespace) s.data).filter
    (fun t => !t.isEmpty)).map String.mk

/-- Rust `Vec<&str>::join("\n")` on lines. -/
def joinLines (ls : List String) : String :=
  String.mk (List.intercalate ['\n'] (ls.map (·.data)))

/-- `create_relevant_snippet` from `search/searcher.rs` (lines 308-340):
locate the first line containing any whitespace-split query term
(case-insensitively) and return up to `max_lines` lines of context,
together with the snippet's line offset from the document start and its
line count. -/
def create_relevant_snippet (content query : String) (max_lines : Nat) :
    String × Nat × Nat :=
  let lines := rustLines content
  let query_lower := lowerStr query
  let query_terms := splitWhitespace query_lower
  let matching := (lines.enum.filter fun p =>
    query_terms.any fun t => strContains (lowerStr p.2) t).map (·.1)
  match matching with
  | [] =>
    let snippet := joinLines (lines.take max_lines)
    (snippet, 0, (rustLines snippet).length)
  | m :: _ =>
    let context_before := 2
    let context_after := max_lines - (context_before + 1)
    let start := m - context_before
    let stop := min (m + context_after + 1) lines.length
    (joinLines ((lines.drop start).take (stop - start)),
      start, stop - start)

/-- Build a `SearchHit` from a stored document as the literal-search loop
does (searcher.rs lines 96-114). -/
def mkLiteralHit (query : String) (maxScore : Rat) (score : Rat)
    (doc : StoredDoc) : SearchHit :=
  let normalized := if maxScore > 0 then score / maxScore else 0
  let sn := create_relevant_snippet doc.content query 10
  { path := doc.path
    line_start := doc.line_start + sn.2.1
    line_end := doc.line_start + sn.2.1 + (sn.2.2 - 1)
    snippet := sn.1
    score := normalized
    is_chunk := !doc.chunk_id.isEmpty
    doc_id := doc.doc_id
    match_type := MatchType.Text }

/-- The candidate loop of `Searcher::search` (searcher.rs lines 75-115):
stop once `limit` hits are collected, skip candidates whose content does
not contain the query case-insensitively. -/
def buildLiteralHits (query : String) (maxScore : Rat) :
    Nat → List (Rat × StoredDoc) → List SearchHit
  | _, [] => []
  | remaining, (score, doc) :: rest =>
    if remaining = 0 then []
    else if containsLower doc.content query then
      mkLiteralHit query maxScore score doc ::
        buildLiteralHits query maxScore (remaining - 1) rest
    else buildLiteralHits query maxScore remaining rest

/-- The empty result returned when the query has no searchable terms
(searcher.rs lines 50-58). -/
def emptyResult : SearchResult :=
  { hits := [], total := 0, query_time_ms := 0, text_hits := 0, semantic_hits := 0 }

/-- `Searcher::search` (searcher.rs lines 31-127).  The tantivy retrieval is
external: `candidates` is the scored `top_docs` list the BM25 engine
returns for the extracted terms (at most `limit * 10` entries in the
source; the model places no constraint on its length). -/
def Searcher.search (cfg : SearchConfig) (query : String) (limitArg : Option Nat)
    (candidates : List (Rat × StoredDoc)) : SearchResult :=
  let limit := min (limitArg.getD cfg.default_limit) cfg.max_limit
  if searchTerms query = [] then emptyResult
  else
    let maxScore := ((candidates.head?.map (·.1)).getD 1)
    let hits := buildLiteralHits query maxScore limit candidates
    { hits := hits
      total := hits.length
      query_time_ms := 0
      text_hits := hits.length
      semantic_hits := 0 }

/-- `create_regex_snippet` from `search/searcher.rs` (lines 344-373): like
`create_relevant_snippet` but matching lines with the compiled regex. -/
def create_regex_snippet (content : String) (rmatch : String → Bool)
    (max_lines : Nat) : String × Nat × Nat :=
  let lines := rustLines content
  let matching := (lines.enum.filter fun p => rmatch p.2).map (·.1)
  match matching with
  | [] =>
    let snippet := joinLines (lines.take max_lines)
    (snippet, 0, (rustLines snippet).length)
  | m :: _ =>
    let context_before := 2
    let context_after := max_lines - (context_before + 1)
    let start := m - context_before
    let stop := min (m + context_after + 1) lines.length
    (joinLines ((lines.drop start).take (stop - start)),
      start, stop - start)

/-- Build a `SearchHit` as the regex-search loop does (searcher.rs lines
240-259). -/
def mkRegexHit (rmatch : String → Bool) (maxScore : Rat) (score : Rat)
    (doc : StoredDoc) : SearchHit :=
  let normalized := if maxScore > 0 then score / maxScore else 0
  let sn := create_regex_snippet doc.content rmatch 10
  { path := doc.path
    line_start := doc.line_start + sn.2.1
    line_end := doc.line_start + sn.2.1 + (sn.2.2 - 1)
    snippet := sn.1
    score := normalized
    is_chunk := !doc.chunk_id.isEmpty
    doc_id := doc.doc_id
    match_type := MatchType.Text }

/-- The candidate loop of `Searcher::search_regex` (searcher.rs lines
220-260): stop at `limit` hits, keep candidates whose content matches the
regex. -/
def buildRegexHits (rmatch : String → Bool) (maxScore : Rat) :
    Nat → List (Rat × StoredDoc) → List SearchHit
  | _, [] => []
  | remaining, (score, doc) :: rest =>
    if remaining = 0 then []
    else if rmatch doc.content then
      mkRegexHit rmatch maxScore score doc ::
        buildRegexHits rmatch maxScore (remaining - 1) rest
    else buildRegexHits rmatch maxScore remaining rest

/-- `Searcher::search_regex` (searcher.rs lines 170-272).  The regex engine
is external: `rmatch` is `is_match` of the compiled case-insensitive
pattern (pattern-compilation failure returns early and is outside this
model), and `candidates` is the tantivy pre-filter / full-scan result. -/
def Searcher.search_regex (cfg : SearchConfig) (rmatch : String → Bool)
    (limitArg : Option Nat) (candidates : List (Rat × StoredDoc)) : SearchResult :=
  let limit := min (limitArg.getD cfg.default_limit) cfg.max_limit
  let maxScore := ((candidates.head?.map (·.1)).getD 1)
  let hits := buildRegexHits rmatch maxScore limit candidates
  { hits := hits
    total := hits.length
    query_time_ms := 0
    text_hits := hits.length
    semantic_hits := 0 }

/-- Rust `Path::extension` on a path string: the portion of the last
component after its final dot; none when there is no dot or when the
component starts with its only dot. -/
def pathExtension (p : String) : Option String :=
  let fileName := ((splitOnPred (fun c => c == '/') p.data).getLast?).getD []
  match splitOnPred (fun c => c == '.') fileName with
  | [] => none
  | [_] => none
  | [[], _] => none
  | parts => (parts.getLast?).map String.mk

/-- Rust `str::eq_ignore_ascii_case`. -/
def eqIgnoreAsciiCase (a b : String) : Bool := lowerStr a == lowerStr b

/-- Search filters (`SearchFilters` in `search/searcher.rs`). -/
structure SearchFilters where
  extensions : Option (List String)
  paths : Option (List String)
deriving DecidableEq, Repr

/-- The extension predicate shared by `Searcher::search_filtered`
(searcher.rs lines 145-153) and the CLI `apply_filters`. -/
def extensionMatches (extensions : List String) (path : String) : Bool :=
  match pathExtension path with
  | some ext => extensions.any (fun e => eqIgnoreAsciiCase e ext)
  | none => false

/-- The path predicate shared by `Searcher::search_filtered` (searcher.rs
lines 155-159) and the CLI `apply_filters`:
`hit.path.starts_with(p) || hit.path.contains(p)`. -/
def pathMatches (pats : List String) (path : String) : Bool :=
  pats.any (fun p => p.data.isPrefixOf path.data || strContains path p)

/-- The two retain passes of `Searcher::search_filtered` (searcher.rs lines
144-159); a present-but-empty filter list removes everything, matching the
Rust `if let Some(...)` structure. -/
def filterHits (filters : SearchFilters) (hits : List SearchHit) : List SearchHit :=
  let h1 := match filters.extensions with
    | some exts => hits.filter (fun h => extensionMatches exts h.path)
    | none => hits
  match filters.paths with
  | some ps => h1.filter (fun h => pathMatches ps h.path)
  | none => h1

/-- `Searcher::search_filtered` (searcher.rs lines 130-167): run the
underlying search with twice the cap, retain by filters, truncate to the
re-computed limit and set `total` to the surviving count. -/
def Searcher.search_filtered (cfg : SearchConfig) (query : String)
    (limitArg : Option Nat) (filters : SearchFilters) (use_regex : Bool)
    (rmatch : String → Bool) (candidates : List (Rat × StoredDoc)) : SearchResult :=
  let base :=
    if use_regex then
      Searcher.search_regex cfg rmatch
        (some ((limitArg.getD cfg.max_limit) * 2)) candidates
    else
      Searcher.search cfg query
        (some ((limitArg.getD cfg.max_limit) * 2)) candidates
  let kept := filterHits filters base.hits
  let limit := min (limitArg.getD cfg.default_limit) cfg.max_limit
  let finalHits := kept.take limit
  { base with hits := finalHits, total := finalHits.length }

/-- Count of hits with match type Text or Hybrid (commands/search.rs lines
103-107). -/
def countTextHits (hits : List SearchHit) : Nat :=
  (hits.filter fun h =>
    h.match_type == MatchType.Text || h.match_type == MatchType.Hybrid).length

/-- Count of hits with match type Semantic or Hybrid (commands/search.rs
lines 108-112). -/
def countSemanticHits (hits : List SearchHit) : Nat :=
  (hits.filter fun h =>
    h.match_type == MatchType.Semantic || h.match_type == MatchType.Hybrid).length

/-- `apply_filters` from `ygrep-cli/src/commands/search.rs` (lines 76-113). -/
def apply_filters (result : SearchResult) (extensions paths : List String) :
    SearchResult :=
  if extensions.isEmpty && paths.isEmpty then result
  else
    let h1 := if extensions.isEmpty then result.hits
      else result.hits.filter (fun h => extensionMatches extensions h.path)
    let h2 := if paths.isEmpty then h1
      else h1.filter (fun h => pathMatches paths h.path)
    { result with
      hits := h2
      total := h2.length
      text_hits := countTextHits h2
      semantic_hits := countSemanticHits h2 }

/-- Every hit produced by the candidate loop comes from a candidate whose
content passes the case-insensitive literal filter. -/
theorem mem_buildLiteralHits {query : String} {maxScore : Rat} {n : Nat}
    {cands : List (Rat × StoredDoc)} {h : SearchHit}
    (hm : h ∈ buildLiteralHits query maxScore n cands) :
    ∃ s sd, (s, sd) ∈ cands ∧ h.doc_id = sd.doc_id ∧
      containsLower sd.content query = true := by
  induction cands generalizing n with
  | nil => simp [buildLiteralHits] at hm
  | cons c rest ih =>
    obtain ⟨s, sd⟩ := c
    rw [buildLiteralHits] at hm
    split at hm
    · simp at hm
    · split at hm
      next hc =>
        rcases List.mem_cons.mp hm with rfl | hmem
        · exact ⟨s, sd, List.mem_cons_self _ _, rfl, hc⟩
        · obtain ⟨s', sd', h1, h2, h3⟩ := ih hmem
          exact ⟨s', sd', List.mem_cons_of_mem _ h1, h2, h3⟩
      next =>
        obtain ⟨s', sd', h1, h2, h3⟩ := ih hm
        exact ⟨s', sd', List.mem_cons_of_mem _ h1, h2, h3⟩

/-- The candidate loop stops once `limit` hits are collected. -/
theorem length_buildLiteralHits_le (query : String) (maxScore : Rat)
    (n : Nat) (cands : List (Rat × StoredDoc)) :
    (buildLiteralHits query maxScore n cands).length ≤ n := by
  induction cands generalizing n with
  | nil => simp [buildLiteralHits]
  | cons c rest ih =>
    obtain ⟨s, sd⟩ := c
    rw [buildLiteralHits]
    split
    next hz => simp [hz]
    next hz =>
      split
      · have := ih (n - 1)
        simp only [List.length_cons]
        omega
      · exact ih n

/-- C1: literal search (`Searcher::search`) returns a hit only for a
candidate document whose lowercased content contains the lowercased query
as a literal substring, and a query with no alphanumeric-or-underscore
token yields the empty result (no hits, total = 0). -/
theorem literal_search_substring_and_empty
    (cfg : SearchConfig) (query : String) (limitArg : Option Nat)
    (candidates : List (Rat × StoredDoc)) :
    (∀ h ∈ (Searcher.search cfg query limitArg candidates).hits,
        ∃ s sd, (s, sd) ∈ candidates ∧ h.doc_id = sd.doc_id ∧
          containsLower sd.content query = true)
    ∧ (searchTerms query = [] →
        Searcher.search cfg query limitArg candidates = emptyResult) := by
  constructor
  · intro h hm
    by_cases ht : searchTerms query = []
    · simp [Searcher.search, ht, emptyResult] at hm
    · simp only [Searcher.search, if_neg ht] at hm
      exact mem_buildLiteralHits hm
  · intro ht
    simp [Searcher.search, ht]

/-- Demo configuration used by concrete witnesses. -/
def demoConfig : SearchConfig := ⟨10, 100, 2, 1, 0⟩

/-- Demo stored document used by concrete witnesses. -/
def demoDoc : StoredDoc := ⟨"src/a.rs", "src/a.rs", "fn hello() {}", 1, ""⟩

/-- Concrete instantiation of the C1 theorem. -/
theorem literal_search_substring_and_empty_witness :
    (∃ s sd, (s, sd) ∈ [((2 : Rat), demoDoc)] ∧
        (mkLiteralHit "hello" 2 2 demoDoc).doc_id = sd.doc_id ∧
        containsLower sd.content "hello" = true)
    ∧ Searcher.search demoConfig "?!" none [] = emptyResult :=
  ⟨(literal_search_substring_and_empty demoConfig "hello" none
      [((2 : Rat), demoDoc)]).1 (mkLiteralHit "hello" 2 2 demoDoc)
      (by with_unfolding_all decide),
   (literal_search_substring_and_empty demoConfig "?!" none []).2 (by decide)⟩

/-- Documents for the C3 counterexample: one `.rs` and one `.ts` file, both
containing the query text. -/
def cexDocA : StoredDoc := ⟨"a.rs", "a.rs", "fn alpha() {}", 1, ""⟩

/-- Second document for the C3 counterexample. -/
def cexDocB : StoredDoc := ⟨"b.ts", "b.ts", "fn beta() {}", 1, ""⟩

/-- Candidate list for the C3 counterexample. -/
def cexCands : List (Rat × StoredDoc) := [(1, cexDocA), (1, cexDocB)]

/-- C3 counterexample: after the extension post-filter inside
`Searcher::search_filtered`, the `text_hits` field is not recomputed from
the surviving hits (here it stays 2 while only one Text hit survives). -/
theorem filtered_counts_counterexample :
    (Searcher.search_filtered demoConfig "fn" none ⟨some ["rs"], none⟩ false
        (fun _ => false) cexCands).text_hits
      ≠ countTextHits (Searcher.search_filtered demoConfig "fn" none
        ⟨some ["rs"], none⟩ false (fun _ => false) cexCands).hits := by
  with_unfolding_all decide

/-- C3 amended: the CLI `apply_filters` recomputes `total`, `text_hits` and
`semantic_hits` from the surviving hits, while `Searcher::search_filtered`
recomputes only `total` (the surviving-hit count) and keeps `text_hits`
and `semantic_hits` at the values of the unfiltered underlying search. -/
theorem filter_recompute_amended (result : SearchResult) (exts ps : List String)
    (hne : (exts.isEmpty && ps.isEmpty) = false) :
    ((apply_filters result exts ps).total
        = (apply_filters result exts ps).hits.length
      ∧ (apply_filters result exts ps).text_hits
          = countTextHits (apply_filters result exts ps).hits
      ∧ (apply_filters result exts ps).semantic_hits
          = countSemanticHits (apply_filters result exts ps).hits)
    ∧ (∀ cfg query limitArg filters ur rm cands,
        let fr := Searcher.search_filtered cfg query limitArg filters ur rm cands
        let base := if ur then
            Searcher.search_regex cfg rm
              (some ((limitArg.getD cfg.max_limit) * 2)) cands
          else
            Searcher.search cfg query
              (some ((limitArg.getD cfg.max_limit) * 2)) cands
        fr.total = fr.hits.length
        ∧ fr.text_hits = base.text_hits
        ∧ fr.semantic_hits = base.semantic_hits) := by
  constructor
  · simp [apply_filters, hne]
  · intro cfg query limitArg filters ur rm cands
    cases ur <;> exact ⟨rfl, rfl, rfl⟩

/-- Concrete instantiation of the C3 amended theorem. -/
theorem filter_recompute_amended_witness :
    ((apply_filters emptyResult ["rs"] []).total
        = (apply_filters emptyResult ["rs"] []).hits.length)
    ∧ (Searcher.search_filtered demoConfig "fn" none ⟨some ["rs"], none⟩ false
          (fun _ => false) cexCands).total
        = (Searcher.search_filtered demoConfig "fn" none ⟨some ["rs"], none⟩
          false (fun _ => false) cexCands).hits.length :=
  ⟨((filter_recompute_amended emptyResult ["rs"] [] (by decide)).1).1,
   ((filter_recompute_amended emptyResult ["rs"] [] (by decide)).2 demoConfig
      "fn" none ⟨some ["rs"], none⟩ false (fun _ => false) cexCands).1⟩

/-- The workspace handle fields the open model tracks. -/
structure WorkspaceOpened where
  root : String
deriving DecidableEq, Repr

/-- `Workspace::open_internal` (lib.rs lines 83-153).  The filesystem and
tantivy are external inputs: `root` is the already-canonicalized workspace
root, `workspaceIndexed` is whether `workspace.json` exists in the index
directory, `tantivyExists` whether tantivy's `meta.json` exists,
`tantivyOpen`/`tantivyCreate` the outcomes of `Index::open_in_dir` and of
directory creation plus `Index::create_in_dir`, and `vectorSetup` the
outcome of loading or creating the vector index. -/
def Workspace.open_internal (root : String)
    (create workspaceIndexed tantivyExists : Bool)
    (tantivyOpen tantivyCreate vectorSetup : Except YgrepError Unit) :
    Except YgrepError WorkspaceOpened :=
  if !create && !workspaceIndexed then
    .error (.Config ("Workspace not indexed: " ++ root))
  else
    match (if tantivyExists then tantivyOpen else tantivyCreate) with
    | .error e => .error e
    | .ok _ =>
      match vectorSetup with
      | .error e => .error e
      | .ok _ => .ok { root := root }

/-- C4 counterexample: opening without create on an unindexed directory
fails with the `Config` error kind (message embedding the path), which is
not the `WorkspaceNotIndexed` kind. -/
theorem open_error_kind_counterexample :
    Workspace.open_internal "/w" false false false (.ok ()) (.ok ()) (.ok ())
        = .error (.Config "Workspace not indexed: /w")
    ∧ YgrepError.Config "Workspace not indexed: /w"
        ≠ YgrepError.WorkspaceNotIndexed "/w" := by
  exact ⟨rfl, by decide⟩

/-- C4 amended: opening without create on a directory whose index directory
lacks `workspace.json` fails, with the `Config` error kind carrying the
message `Workspace not indexed: <path>`; and an open without create
succeeds only when `workspace.json` exists. -/
theorem open_requires_metadata_amended (root : String)
    (create workspaceIndexed tantivyExists : Bool)
    (tOpen tCreate vSetup : Except YgrepError Unit) :
    (create = false → workspaceIndexed = false →
        Workspace.open_internal root create workspaceIndexed tantivyExists
            tOpen tCreate vSetup
          = .error (.Config ("Workspace not indexed: " ++ root)))
    ∧ (create = false →
        ∀ w, Workspace.open_internal root create workspaceIndexed tantivyExists
            tOpen tCreate vSetup = .ok w → workspaceIndexed = true) := by
  constructor
  · rintro rfl rfl; rfl
  · rintro rfl w h
    cases workspaceIndexed with
    | true => rfl
    | false => simp [Workspace.open_internal] at h

/-- Concrete instantiation of the C4 amended theorem. -/
theorem open_requires_metadata_amended_witness :
    Workspace.open_internal "/w" false false true (.ok ()) (.ok ()) (.ok ())
      = .error (.Config ("Workspace not indexed: " ++ "/w")) :=
  (open_requires_metadata_amended "/w" false false true
    (.ok ()) (.ok ()) (.ok ())).1 rfl rfl

/-- Render a canonical absolute path, given as its component list, the way
`Path::to_string_lossy` shows it. -/
def renderPath (p : List String) : String :=
  "/" ++ String.intercalate "/" p

/-- Rust `Path::parent` on canonical absolute component lists: the
filesystem root has no parent. -/
def parentDir : List String → Option (List String)
  | [] => none
  | p => some p.dropLast

/-- `hash_workspace_path` (cli/workspace.rs lines 14-17).  The xxh3_64 hash
is an external collaborator: `hashFn` maps the rendered path string to the
16-hex-digit identifier. -/
def hash_workspace_path (hashFn : String → String) (p : List String) : String :=
  hashFn (renderPath p)

/-- `get_index_path_for_hash` (cli/workspace.rs lines 20-22). -/
def get_index_path_for_hash (dataDir hash : String) : String :=
  dataDir ++ "/indexes/" ++ hash

/-- `index_exists` (cli/workspace.rs lines 25-27); `fileExists` is the
filesystem's existence test. -/
def index_exists (fileExists : String → Bool) (indexPath : String) : Bool :=
  fileExists (indexPath ++ "/workspace.json")

/-- Whether a directory is indexed: hash it and test
`<data_dir>/indexes/<hash>/workspace.json`. -/
def isIndexedDir (hashFn : String → String) (fileExists : String → Bool)
    (dataDir : String) (p : List String) : Bool :=
  index_exists fileExists
    (get_index_path_for_hash dataDir (hash_workspace_path hashFn p))

/-- `MAX_PARENT_DEPTH` (cli/workspace.rs line 11). -/
def MAX_PARENT_DEPTH : Nat := 10

/-- The climb loop of `discover_parent_indexes` (cli/workspace.rs lines
52-76): push the current directory with its indexed flag, stop on an
indexed directory, at the filesystem root, or when the depth budget is
used up. -/
def discoverAux (hashFn : String → String) (fileExists : String → Bool)
    (dataDir : String) : Nat → List String → List (List String × Bool)
  | 0, _ => []
  | fuel + 1, current =>
    let isIdx := isIndexedDir hashFn fileExists dataDir current
    (current, isIdx) ::
      (if isIdx then []
       else
         match parentDir current with
         | none => []
         | some p => discoverAux hashFn fileExists dataDir fuel p)

/-- `discover_parent_indexes` (cli/workspace.rs lines 39-79); `canon`
models `std::fs::canonicalize` (`none` is an OS error, yielding the empty
result list). -/
def discover_parent_indexes (hashFn : String → String)
    (fileExists : String → Bool) (dataDir : String)
    (canon : List String → Option (List String)) (start : List String) :
    List (List String × Bool) :=
  match canon start with
  | none => []
  | some c => discoverAux hashFn fileExists dataDir MAX_PARENT_DEPTH c

/-- `find_nearest_indexed_parent` (cli/workspace.rs lines 85-92): first
discovered directory whose indexed flag is set. -/
def find_nearest_indexed_parent (hashFn : String → String)
    (fileExists : String → Bool) (dataDir : String)
    (canon : List String → Option (List String)) (start : List String) :
    Option (List String) :=
  ((discover_parent_indexes hashFn fileExists dataDir canon start).find?
    (fun pr => pr.2)).map (·.1)

/-- `ResolveError` (cli/workspace.rs lines 151-163). -/
inductive ResolveError where
  | InvalidPath (path : List String)
  | NotIndexed (path : List String)
deriving DecidableEq, Repr

/-- `resolve_workspace` (cli/workspace.rs lines 103-141). -/
def resolve_workspace (hashFn : String → String) (fileExists : String → Bool)
    (dataDir : String) (canon : List String → Option (List String))
    (explicit : Option (List String)) (start : List String) :
    Except ResolveError (Option (List String)) :=
  match explicit with
  | some ws =>
    match canon ws with
    | none => .error (.InvalidPath ws)
    | some c =>
      if isIndexedDir hashFn fileExists dataDir c then .ok (some c)
      else .error (.NotIndexed c)
  | none =>
    match find_nearest_indexed_parent hashFn fileExists dataDir canon start with
    | some p => .ok (some p)
    | none => .ok none

/-- Iterated `parentDir`: the `k`-th ancestor of a directory. -/
def parentIter : Nat → List String → Option (List String)
  | 0, p => some p
  | n + 1, p => (parentDir p).bind (parentIter n)

/-- The climb loop visits at most `fuel` directories. -/
theorem length_discoverAux_le (hashFn : String → String)
    (fileExists : String → Bool) (dataDir : String) :
    ∀ (fuel : Nat) (c : List String),
      (discoverAux hashFn fileExists dataDir fuel c).length ≤ fuel := by
  intro fuel
  induction fuel with
  | zero => intro c; simp [discoverAux]
  | succ n ih =>
    intro c
    rw [discoverAux]
    by_cases hi : isIndexedDir hashFn fileExists dataDir c
    · simp [hi]
    · simp only [hi, if_false, List.length_cons]
      cases hp : parentDir c with
      | none => simp
      | some p => simpa using ih p

/-- If the climb loop finds an indexed directory, it is the `k`-th ancestor
for some `k` below the fuel, and every strictly nearer ancestor is
unindexed. -/
theorem find_discoverAux (hashFn : String → String)
    (fileExists : String → Bool) (dataDir : String) :
    ∀ (fuel : Nat) (c : List String) (pr : List String × Bool),
      (discoverAux hashFn fileExists dataDir fuel c).find? (fun x => x.2)
          = some pr →
      ∃ k, k < fuel ∧ parentIter k c = some pr.1 ∧
        isIndexedDir hashFn fileExists dataDir pr.1 = true ∧
        ∀ j q, j < k → parentIter j c = some q →
          isIndexedDir hashFn fileExists dataDir q = false := by
  intro fuel
  induction fuel with
  | zero => intro c pr h; simp [discoverAux] at h
  | succ n ih =>
    intro c pr h
    rw [discoverAux] at h
    by_cases hi : isIndexedDir hashFn fileExists dataDir c
    · simp only [hi, if_true, List.find?] at h
      refine ⟨0, Nat.succ_pos n, ?_, ?_, ?_⟩
      · cases h; rfl
      · cases h; exact hi
      · intro j q hj; omega
    · simp only [hi, if_false, List.find?] at h
      cases hp : parentDir c with
      | none => rw [hp] at h; simp at h
      | some p =>
        rw [hp] at h
        obtain ⟨k', hk', hpi, hidx, hearlier⟩ := ih p pr h
        refine ⟨k' + 1, by omega, ?_, hidx, ?_⟩
        · show (parentDir c).bind (parentIter k') = some pr.1
          rw [hp]; exact hpi
        · intro j q hj hq
          match j with
          | 0 =>
            simp only [parentIter] at hq
            cases hq
            simpa using hi
          | j' + 1 =>
            simp only [parentIter, hp, Option.bind_some] at hq
            exact hearlier j' q (by omega) hq

/-- C5: the resolver visits at most 10 directory levels; with no explicit
override a resolved workspace is the nearest indexed ancestor of the
starting path (every strictly nearer level is unindexed); an explicit
override that is not itself indexed yields the distinct `NotIndexed`
error instead of falling back to parent discovery. -/
theorem resolver_nearest_ancestor (hashFn : String → String)
    (fileExists : String → Bool) (dataDir : String)
    (canon : List String → Option (List String)) (start ws : List String) :
    (discover_parent_indexes hashFn fileExists dataDir canon start).length
        ≤ MAX_PARENT_DEPTH
    ∧ (∀ c p, canon start = some c →
        resolve_workspace hashFn fileExists dataDir canon none start
            = .ok (some p) →
        ∃ k, k < MAX_PARENT_DEPTH ∧ parentIter k c = some p ∧
          isIndexedDir hashFn fileExists dataDir p = true ∧
          ∀ j q, j < k → parentIter j c = some q →
            isIndexedDir hashFn fileExists dataDir q = false)
    ∧ (∀ c, canon ws = some c →
        isIndexedDir hashFn fileExists dataDir c = false →
        resolve_workspace hashFn fileExists dataDir canon (some ws) start
          = .error (.NotIndexed c)) := by
  refine ⟨?_, ?_, ?_⟩
  · rw [discover_parent_indexes]
    cases canon start with
    | none => simp
    | some c => exact length_discoverAux_le hashFn fileExists dataDir _ c
  · intro c p hc hr
    rw [resolve_workspace] at hr
    cases hf : find_nearest_indexed_parent hashFn fileExists dataDir canon start with
    | none => rw [hf] at hr; simp at hr
    | some q =>
      rw [hf] at hr
      have hqp : q = p := by simpa using hr
      rw [find_nearest_indexed_parent, discover_parent_indexes, hc] at hf
      cases hfind : (discoverAux hashFn fileExists dataDir MAX_PARENT_DEPTH c).find?
          (fun pr => pr.2) with
      | none => rw [hfind] at hf; simp at hf
      | some pr =>
        rw [hfind] at hf
        have hpq : pr.1 = q := by simpa using hf
        have := find_discoverAux hashFn fileExists dataDir _ c pr hfind
        rw [hpq, hqp] at this
        exact this
  · intro c hc hidx
    simp [resolve_workspace, hc, hidx]

/-- Concrete instantiation of the C5 theorem: starting from `/a/b/c` with
only `/a` indexed, the resolver returns `/a` as the nearest indexed
ancestor, and an explicit unindexed override errors with `NotIndexed`. -/
theorem resolver_nearest_ancestor_witness :
    (∃ k, k < MAX_PARENT_DEPTH ∧ parentIter k ["a", "b", "c"] = some ["a"] ∧
      isIndexedDir (fun s => s)
        (fun s => s == "/d/indexes//a/workspace.json") "/d" ["a"] = true ∧
      ∀ j q, j < k → parentIter j ["a", "b", "c"] = some q →
        isIndexedDir (fun s => s)
          (fun s => s == "/d/indexes//a/workspace.json") "/d" q = false)
    ∧ resolve_workspace (fun s => s)
        (fun s => s == "/d/indexes//a/workspace.json") "/d" some
        (some ["z"]) ["a", "b", "c"] = .error (.NotIndexed ["z"]) :=
  ⟨(resolver_nearest_ancestor (fun s => s)
      (fun s => s == "/d/indexes//a/workspace.json") "/d" some
      ["a", "b", "c"] ["z"]).2.1 ["a", "b", "c"] ["a"] rfl (by decide),
   (resolver_nearest_ancestor (fun s => s)
      (fun s => s == "/d/indexes//a/workspace.json") "/d" some
      ["a", "b", "c"] ["z"]).2.2 ["z"] rfl (by decide)⟩

/-- In-memory state of the HNSW vector index (`VectorIndex` in
`index/vector.rs`): the fixed dimension, the out-of-band
`ordinal → doc_id` array, and the vectors held by the graph in insertion
(ordinal) order. -/
structure VectorIndexState where
  dimension : Nat
  doc_ids : List String
  points : List (List Rat)
deriving DecidableEq, Repr

/-- `VectorIndex::new` (vector.rs lines 46-68): an empty index of the given
dimension (directory creation and HNSW graph parameters are external). -/
def VectorIndex.new (dimension : Nat) : VectorIndexState :=
  { dimension := dimension, doc_ids := [], points := [] }

/-- `VectorIndex::len` (vector.rs lines 208-210). -/
def VectorIndex.len (st : VectorIndexState) : Nat := st.doc_ids.length

/-- `VectorIndex::insert` (vector.rs lines 132-151), state-passing: reject a
wrong-dimension embedding before any mutation, otherwise append the
doc_id and insert the vector into the graph under the next ordinal. -/
def VectorIndex.insert (st : VectorIndexState) (doc_id : String)
    (embedding : List Rat) : VectorIndexState × Except YgrepError Nat :=
  if embedding.length ≠ st.dimension then
    (st, .error (.Config ("Embedding dimension mismatch: expected " ++
      toString st.dimension ++ ", got " ++ toString embedding.length)))
  else
    ({ dimension := st.dimension
       doc_ids := st.doc_ids ++ [doc_id]
       points := st.points ++ [embedding] },
     .ok st.doc_ids.length)

/-- `VectorIndex::search` (vector.rs lines 156-183).  The graph traversal is
external: `ann k ef` is the neighbor list `hnsw.search` returns as
(point id, distance) pairs; the method reads but never mutates the index. -/
def VectorIndex.search (st : VectorIndexState)
    (ann : Nat → Nat → List (Nat × Rat)) (query : List Rat) (k : Nat) :
    Except YgrepError (List (Nat × Rat × String)) :=
  if query.length ≠ st.dimension then
    .error (.Config ("Query dimension mismatch: expected " ++
      toString st.dimension ++ ", got " ++ toString query.length))
  else if st.doc_ids.isEmpty then .ok []
  else
    let ef_search := max k 30
    let neighbors := ann k ef_search
    .ok (neighbors.filterMap fun n =>
      (st.doc_ids.get? n.1).map fun d => (n.1, n.2, d))

/-- `VectorIndex::clear` (vector.rs lines 223-227). -/
def VectorIndex.clear (st : VectorIndexState) : VectorIndexState :=
  { dimension := st.dimension, doc_ids := [], points := [] }

/-- A stored vector of the legacy persistence format (`StoredVector` in
vector.rs). -/
structure StoredVector where
  doc_id : String
  vector : List Rat
deriving DecidableEq, Repr

/-- The legacy `vectors.json` content (`VectorData` in vector.rs). -/
structure VectorData where
  dimension : Nat
  vectors : List StoredVector
deriving DecidableEq, Repr

/-- The `doc_ids.json` content (`DocIdIndex` in vector.rs). -/
structure DocIdIndex where
  dimension : Nat
  doc_ids : List String
deriving DecidableEq, Repr

/-- `VectorIndex::load` (vector.rs lines 71-120).  File existence and
parsing are external: `fast` is the parsed `doc_ids.json` paired with the
vectors of the HNSW dump when both fast-path files exist and load,
`legacy` the parsed legacy `vectors.json` when it exists and parses
(IO/parse failures return early with their own errors, outside this
model).  The legacy path rebuilds the graph by inserting each stored
vector in order, ordinal = array index. -/
def VectorIndex.load (path : String)
    (fast : Option (DocIdIndex × List (List Rat)))
    (legacy : Option VectorData) : Except YgrepError VectorIndexState :=
  match fast with
  | some (di, pts) =>
    .ok { dimension := di.dimension, doc_ids := di.doc_ids, points := pts }
  | none =>
    match legacy with
    | none => .error (.WorkspaceNotIndexed path)
    | some data =>
      .ok { dimension := data.dimension
            doc_ids := data.vectors.map (·.doc_id)
            points := data.vectors.map (·.vector) }

/-- C6: inserting an embedding of the wrong length errors and leaves the
index unchanged; searching with a wrong-length query errors; and the
invariant that every stored vector has the index's dimension is
established by `new` and preserved by every `insert`. -/
theorem vector_dimension_gate (st : VectorIndexState) (doc_id : String)
    (embedding query : List Rat) (ann : Nat → Nat → List (Nat × Rat))
    (k dim : Nat) :
    (embedding.length ≠ st.dimension →
      (VectorIndex.insert st doc_id embedding).1 = st ∧
      (VectorIndex.insert st doc_id embedding).2
        = .error (.Config ("Embedding dimension mismatch: expected " ++
            toString st.dimension ++ ", got " ++ toString embedding.length)) ∧
      VectorIndex.len (VectorIndex.insert st doc_id embedding).1
        = VectorIndex.len st)
    ∧ (query.length ≠ st.dimension →
        VectorIndex.search st ann query k
          = .error (.Config ("Query dimension mismatch: expected " ++
              toString st.dimension ++ ", got " ++ toString query.length)))
    ∧ ((∀ v ∈ st.points, v.length = st.dimension) →
        ∀ v ∈ (VectorIndex.insert st doc_id embedding).1.points,
          v.length = (VectorIndex.insert st doc_id embedding).1.dimension)
    ∧ (∀ v ∈ (VectorIndex.new dim).points, v.length = dim) := by
  refine ⟨?_, ?_, ?_, ?_⟩
  · intro hne
    simp [VectorIndex.insert, hne]
  · intro hne
    simp [VectorIndex.search, hne]
  · intro hinv v hv
    by_cases he : embedding.length = st.dimension
    · simp only [VectorIndex.insert, he, ne_eq, not_true_eq_false, if_false] at hv ⊢
      rcases List.mem_append.mp hv with h | h
      · exact hinv v h
      · rw [List.mem_singleton.mp h]
        exact he
    · simp only [VectorIndex.insert, if_pos he] at hv ⊢
      exact hinv v hv
  · intro v hv
    simp [VectorIndex.new] at hv

/-- Concrete instantiation of the C6 theorem. -/
theorem vector_dimension_gate_witness :
    (VectorIndex.insert (VectorIndex.new 3) "doc1" [1, 0]).1
        = VectorIndex.new 3
    ∧ (VectorIndex.insert (VectorIndex.new 3) "doc1" [1, 0]).2
        = .error (.Config "Embedding dimension mismatch: expected 3, got 2")
    ∧ VectorIndex.search (VectorIndex.new 3) (fun _ _ => []) [1, 0] 5
        = .error (.Config "Query dimension mismatch: expected 3, got 2") := by
  have h := vector_dimension_gate (VectorIndex.new 3) "doc1" [1, 0] [1, 0]
    (fun _ _ => []) 5 3
  obtain ⟨h1, h2, h3⟩ := h.1 (by decide)
  exact ⟨h1, by simpa using h2, by simpa using h.2.1 (by decide)⟩

/-- C7: loading the legacy `vectors.json` with N entries yields an index
with `len = N`, the stored dimension, and the ordinal-to-doc_id mapping
preserved in file order (the i-th ordinal maps to the i-th stored entry's
doc_id, and the i-th graph point is its vector). -/
theorem legacy_load_roundtrip (path : String) (data : VectorData) :
    ∃ st, VectorIndex.load path none (some data) = .ok st ∧
      VectorIndex.len st = data.vectors.length ∧
      st.dimension = data.dimension ∧
      (∀ i : Nat, st.doc_ids[i]? = (data.vectors[i]?).map (·.doc_id)) ∧
      (∀ i : Nat, st.points[i]? = (data.vectors[i]?).map (·.vector)) := by
  refine ⟨_, rfl, ?_, rfl, ?_, ?_⟩
  · simp [VectorIndex.len]
  · intro i
    simp [List.getElem?_map]
  · intro i
    simp [List.getElem?_map]

/-- Rust `slice::chunks(n)`: consecutive chunks of at most `n` elements
(`n` is the positive constant 64 at the call site; `n = 0` is treated as
producing no chunks). -/
def chunksOf {α : Type} : Nat → List α → List (List α)
  | _, [] => []
  | 0, _ :: _ => []
  | n + 1, x :: xs =>
    (x :: xs).take (n + 1) :: chunksOf (n + 1) ((x :: xs).drop (n + 1))
termination_by _ l => l.length
decreasing_by
  simp only [List.drop_succ_cons, List.length_cons, List.length_drop]
  omega

/-- Elements of a chunk are elements of the chunked list. -/
theorem mem_of_mem_chunksOf {α : Type} (n : Nat) (l : List α) :
    ∀ c ∈ chunksOf n l, ∀ x ∈ c, x ∈ l := by
  induction n, l using chunksOf.induct with
  | case1 n => simp [chunksOf]
  | case2 x xs => simp [chunksOf]
  | case3 n x xs ih =>
    intro c hc
    rw [chunksOf] at hc
    rcases List.mem_cons.mp hc with rfl | hmem
    · exact fun y hy => List.mem_of_mem_take hy
    · exact fun y hy => List.mem_of_mem_drop (ih c hmem y hy)

/-- The longest prefix of a character list whose total UTF-8 byte size is
at most `n`. -/
def takeBytes (n : Nat) : List Char → List Char
  | [] => []
  | c :: cs => if c.utf8Size ≤ n then c :: takeBytes (n - c.utf8Size) cs else []

/-- Rust `&content[..content.floor_char_boundary(n)]` guarded by
`content.len() > n`, as applied in lib.rs lines 252-265 and 476-482:
truncate to at most `n` UTF-8 bytes at a character boundary, leaving
shorter strings unchanged. -/
def truncateBytes (n : Nat) (content : String) : String :=
  if content.utf8ByteSize > n then String.mk (takeBytes n content.data)
  else content

/-- The per-chunk body of the bulk embedding loop (lib.rs lines 251-285):
truncate each text to 4096 bytes, embed the batch, and pair each returned
vector with its doc_id; a failed batch contributes nothing. -/
def chunkInserts
    (embedBatch : List String → Except YgrepError (List (List Rat)))
    (chunk : List (String × String)) : List (String × List Rat) :=
  match embedBatch (chunk.map fun p => truncateBytes 4096 p.2) with
  | .ok embs => (chunk.zip embs).map fun pe => (pe.1.1, pe.2)
  | .error _ => []

/-- Phase 2 of `Workspace::index_all_with_options` (lib.rs lines 219-292):
filter the collected (doc_id, content) pairs by the byte-size gate, embed
in chunks of 64 with each text truncated to 4096 bytes, and insert each
returned vector.  The embedding model is the external `embedBatch`; the
result is the sequence of (doc_id, embedding) insertions attempted on the
vector index (a failed batch is logged and dropped). -/
def bulkEmbeddingInserts
    (embedBatch : List String → Except YgrepError (List (List Rat)))
    (embedding_batch : List (String × String)) : List (String × List Rat) :=
  let filtered := embedding_batch.filter fun p =>
    50 ≤ p.2.utf8ByteSize && p.2.utf8ByteSize ≤ 50000
  (chunksOf 64 filtered).flatMap (chunkInserts embedBatch)

/-- The embedding step of `Workspace::index_file_with_options` (lib.rs
lines 469-509): gate on the content byte length, truncate, embed, and
return the attempted insertion if any (an embedding failure is logged and
dropped). -/
def incrementalEmbeddingInsert
    (embed : String → Except YgrepError (List Rat))
    (doc_id content : String) : Option (String × List Rat) :=
  if 50 ≤ content.utf8ByteSize && content.utf8ByteSize ≤ 50000 then
    match embed (truncateBytes 4096 content) with
    | .ok e => some (doc_id, e)
    | .error _ => none
  else none

/-- C8: with embeddings enabled, both the bulk pass and the incremental
pass attempt a vector-index insertion for a document only if its content
length in bytes is at least 50 and at most 50000. -/
theorem embedding_size_gate
    (embedBatch : List String → Except YgrepError (List (List Rat)))
    (embed : String → Except YgrepError (List Rat))
    (batch : List (String × String)) (d : String) (e : List Rat)
    (doc_id content : String) (de : String × List Rat) :
    ((d, e) ∈ bulkEmbeddingInserts embedBatch batch →
      ∃ c, (d, c) ∈ batch ∧ 50 ≤ c.utf8ByteSize ∧ c.utf8ByteSize ≤ 50000)
    ∧ (incrementalEmbeddingInsert embed doc_id content = some de →
        50 ≤ content.utf8ByteSize ∧ content.utf8ByteSize ≤ 50000) := by
  constructor
  · intro hm
    rw [bulkEmbeddingInserts] at hm
    obtain ⟨chunk, hchunk, hmem⟩ := List.mem_flatMap.mp hm
    rw [chunkInserts] at hmem
    cases heq : embedBatch (chunk.map fun p => truncateBytes 4096 p.2) with
    | error err => rw [heq] at hmem; simp at hmem
    | ok embs =>
      rw [heq] at hmem
      obtain ⟨pe, hz, hpe⟩ := List.mem_map.mp hmem
      obtain ⟨⟨d', c⟩, e'⟩ := pe
      obtain ⟨hd, -⟩ := Prod.mk.injEq .. |>.mp hpe
      have hin : (d', c) ∈ chunk := (List.of_mem_zip hz).1
      have hfil := mem_of_mem_chunksOf 64 _ chunk hchunk _ hin
      obtain ⟨hbatch, hp⟩ := List.mem_filter.mp hfil
      simp only [Bool.and_eq_true, decide_eq_true_eq] at hp
      have hd' : d' = d := by simpa using hd
      exact ⟨c, by rwa [hd'] at hbatch, hp.1, hp.2⟩
  · intro hsome
    rw [incrementalEmbeddingInsert] at hsome
    split at hsome
    next hp =>
      simp only [Bool.and_eq_true, decide_eq_true_eq] at hp
      exact hp
    next => simp at hsome

/-- Concrete instantiation of the C8 theorem: a 57-byte document passes the
gate in the incremental pass. -/
theorem embedding_size_gate_witness :
    50 ≤ ("fn hello underscore world and some more padding text here" : String).utf8ByteSize
    ∧ ("fn hello underscore world and some more padding text here" : String).utf8ByteSize ≤ 50000 :=
  (embedding_size_gate (fun _ => .ok []) (fun _ => .ok [1]) [] "d" []
    "d" "fn hello underscore world and some more padding text here"
    ("d", [1])).2 (by decide)

/-- The workspace state `delete_file` interacts with: the workspace root,
the committed text-index documents, and the vector index. -/
structure WorkspaceIndexes where
  root : List String
  textDocs : List StoredDoc
  vectorIndex : VectorIndexState
deriving DecidableEq, Repr

/-- Rust `path.strip_prefix(&self.root).unwrap_or(path).to_string_lossy()`
(lib.rs lines 411-415) on component lists: the workspace-relative doc_id,
or the rendered path itself when it is not under the root. -/
def relativeDocId (root path : List String) : String :=
  if root.isPrefixOf path then String.intercalate "/" (path.drop root.length)
  else renderPath path

/-- `Workspace::delete_file` (lib.rs lines 408-430): delete-by-term on the
relative doc_id from the text index, then commit.  The `doc_id` schema
field always exists against the document schema, and the tantivy writer
and commit IO are abstracted as successful; the vector index is not
touched by the source. -/
def Workspace.delete_file (ws : WorkspaceIndexes) (path : List String) :
    Except YgrepError WorkspaceIndexes :=
  let docId := relativeDocId ws.root path
  .ok { ws with textDocs := ws.textDocs.filter fun d => d.doc_id != docId }

/-- C9: `delete_file` deletes from the text index only: the vector index
(graph and ordinal-to-doc_id mapping) is entirely unchanged, exactly the
documents whose doc_id equals the path's relative doc_id are removed, the
call succeeds on every input, and when no document matches the text index
is unchanged too (deleting an unknown path is not an error). -/
theorem delete_file_frame (ws : WorkspaceIndexes) (path : List String) :
    ∃ ws', Workspace.delete_file ws path = .ok ws' ∧
      ws'.vectorIndex = ws.vectorIndex ∧
      ws'.root = ws.root ∧
      ws'.textDocs = ws.textDocs.filter
        (fun d => d.doc_id != relativeDocId ws.root path) ∧
      ((∀ d ∈ ws.textDocs, d.doc_id ≠ relativeDocId ws.root path) →
        ws'.textDocs = ws.textDocs) := by
  refine ⟨_, rfl, rfl, rfl, rfl, ?_⟩
  intro hall
  exact List.filter_eq_self.mpr fun d hd => by
    simpa [bne_iff_ne] using hall d hd

/-- Demo workspace for the C9 witness. -/
def demoWs : WorkspaceIndexes :=
  ⟨["w"], [⟨"a.rs", "a.rs", "fn a() {}", 1, ""⟩], VectorIndex.new 3⟩

/-- Concrete instantiation of the C9 theorem: deleting a path with no
document in the index succeeds and changes nothing. -/
theorem delete_file_frame_witness :
    ∃ ws', Workspace.delete_file demoWs ["w", "b.rs"] = .ok ws' ∧
      ws'.vectorIndex = demoWs.vectorIndex ∧
      ws'.textDocs = demoWs.textDocs := by
  obtain ⟨ws', h1, h2, h3, h4, h5⟩ := delete_file_frame demoWs ["w", "b.rs"]
  exact ⟨ws', h1, h2, h5 (by decide)⟩

/-- An intermediate result with ranking info (`RankedResult` in
`search/hybrid.rs`). -/
structure RankedResult where
  doc_id : String
  path : String
  content : String
  line_start : Nat
  is_chunk : Bool
  rank : Nat
  score : Rat
deriving DecidableEq, Repr

/-- A document as one retrieval branch returns it, before rank assignment
(the loop element of `bm25_search` / `vector_search` in hybrid.rs; for the
vector branch `score` is the converted similarity `1/(1+distance)`). -/
structure BranchDoc where
  doc_id : String
  path : String
  content : String
  line_start : Nat
  is_chunk : Bool
  score : Rat
deriving DecidableEq, Repr

/-- Rank assignment in `bm25_search` and `vector_search` (hybrid.rs lines
108-126 and 150-165): rank is the 1-based position in the branch's result
list. -/
def rankResults (l : List BranchDoc) : List RankedResult :=
  l.enum.map fun p =>
    { doc_id := p.2.doc_id
      path := p.2.path
      content := p.2.content
      line_start := p.2.line_start
      is_chunk := p.2.is_chunk
      rank := p.1 + 1
      score := p.2.score }

/-- Fused score from both retrieval methods (`FusedScore` in hybrid.rs). -/
structure FusedScore where
  result : RankedResult
  bm25_rrf : Rat
  vector_rrf : Rat
deriving DecidableEq, Repr

/-- The RRF constant `K` (hybrid.rs line 204). -/
def K_RRF : Rat := 60

/-- The `combined_scores.entry(doc_id).or_insert_with(..)` followed by a
field assignment, on an insertion-ordered association list modelling the
Rust HashMap: update the existing entry for `key`, or append a fresh
one. -/
def upsertWith (upd : FusedScore → FusedScore) (ini : FusedScore)
    (key : String) : List (String × FusedScore) → List (String × FusedScore)
  | [] => [(key, ini)]
  | (k, f) :: rest =>
    if k = key then (k, upd f) :: rest
    else (k, f) :: upsertWith upd ini key rest

/-- The BM25 loop step of the fusion (hybrid.rs lines 209-219): insert the
entry from the BM25 result if absent, then assign its `bm25_rrf`. -/
def upsertBm25 (m : List (String × FusedScore)) (r : RankedResult)
    (sc : Rat) : List (String × FusedScore) :=
  upsertWith (fun f => { f with bm25_rrf := sc }) ⟨r, sc, 0⟩ r.doc_id m

/-- The vector loop step of the fusion (hybrid.rs lines 222-232). -/
def upsertVector (m : List (String × FusedScore)) (r : RankedResult)
    (sc : Rat) : List (String × FusedScore) :=
  upsertWith (fun f => { f with vector_rrf := sc }) ⟨r, 0, sc⟩ r.doc_id m

/-- Build the final `SearchHit` from a fused entry (hybrid.rs lines
235-264): total score is the sum of the two RRF contributions and the
match type is decided by which contributions are positive. -/
def fusedHit (query : String) (f : FusedScore) : SearchHit :=
  let total_score := f.bm25_rrf + f.vector_rrf
  let sn := create_relevant_snippet f.result.content query 10
  let mt := match decide (f.bm25_rrf > 0), decide (f.vector_rrf > 0) with
    | true, true => MatchType.Hybrid
    | true, false => MatchType.Text
    | false, true => MatchType.Semantic
    | false, false => MatchType.Text
  { path := f.result.path
    line_start := f.result.line_start + sn.2.1
    line_end := f.result.line_start + sn.2.1 + (sn.2.2 - 1)
    snippet := sn.1
    score := total_score
    is_chunk := f.result.is_chunk
    doc_id := f.result.doc_id
    match_type := mt }

/-- The `combined_scores` HashMap of the fusion after both loops
(hybrid.rs lines 206-232), modelled as an insertion-ordered association
list (the Rust HashMap iterates values in an unspecified order; the final
sort by descending score is the ordering the function guarantees). -/
def fusionMap (bm25_results vector_results : List RankedResult)
    (bm25_weight vector_weight : Rat) : List (String × FusedScore) :=
  vector_results.foldl
    (fun m r => upsertVector m r (vector_weight / (K_RRF + (r.rank : Rat))))
    (bm25_results.foldl
      (fun m r => upsertBm25 m r (bm25_weight / (K_RRF + (r.rank : Rat)))) [])

/-- `HybridSearcher::reciprocal_rank_fusion` (hybrid.rs lines 196-270):
fill the fusion map from both branches, convert every fused entry to a
`SearchHit`, and sort by score descending. -/
def reciprocal_rank_fusion (bm25_results vector_results : List RankedResult)
    (bm25_weight vector_weight : Rat) (query : String) : List SearchHit :=
  ((fusionMap bm25_results vector_results bm25_weight vector_weight).map
    fun kf => fusedHit query kf.2).mergeSort
    fun a b => decide (b.score ≤ a.score)

/-- `HybridSearcher::search` (hybrid.rs lines 49-91).  The branch
retrievals are external inputs: `bm25Docs` is what the quoted-phrase
tantivy query returns, `vecDocs` what the ANN lookup joined with the text
index returns (empty when the vector index is empty); fuse, take the top
`limit`, and count match types. -/
def HybridSearcher.search (cfg : SearchConfig) (query : String)
    (limitArg : Option Nat) (bm25Docs vecDocs : List BranchDoc) : SearchResult :=
  let limit := min (limitArg.getD cfg.default_limit) cfg.max_limit
  let fused := reciprocal_rank_fusion (rankResults bm25Docs)
    (rankResults vecDocs) cfg.bm25_weight cfg.vector_weight query
  let hits := fused.take limit
  { hits := hits
    total := hits.length
    query_time_ms := 0
    text_hits := countTextHits hits
    semantic_hits := countSemanticHits hits }

/-- Whether a doc_id appears in a branch's results. -/
def inBranch (docs : List BranchDoc) (d : String) : Bool :=
  docs.any fun b => b.doc_id == d

/-- Specification-side definition of one branch's RRF contribution for a
doc_id: `weight / (60 + rank)` at the document's 1-based rank in the
branch, 0 when the doc_id does not appear. -/
def specBranchContribution (w : Rat) (docs : List BranchDoc) (d : String) : Rat :=
  match (rankResults docs).find? (fun r => r.doc_id == d) with
  | some r => w / (K_RRF + (r.rank : Rat))
  | none => 0

/-- Lookup in the association-list model of the fusion HashMap. -/
def lookupFused (m : List (String × FusedScore)) (d : String) :
    Option FusedScore :=
  (m.find? fun kf => kf.1 == d).map (·.2)

/-- Lookup after an upsert: the upserted key now maps to the updated or
fresh entry, all other keys are untouched. -/
theorem lookupFused_upsertWith (upd : FusedScore → FusedScore)
    (ini : FusedScore) (key : String) (d : String) :
    ∀ (m : List (String × FusedScore)),
    lookupFused (upsertWith upd ini key m) d =
      if key = d then
        match lookupFused m d with
        | some f => some (upd f)
        | none => some ini
      else lookupFused m d := by
  intro m
  induction m with
  | nil =>
    by_cases hd : key = d <;>
      simp [upsertWith, lookupFused, List.find?_cons, hd]
  | cons kf rest ih =>
    obtain ⟨k, f⟩ := kf
    rw [upsertWith]
    by_cases hk : k = key
    · rw [if_pos hk]
      subst hk
      by_cases hd : k = d
      · subst hd
        simp [lookupFused, List.find?_cons]
      · simp [lookupFused, List.find?_cons, hd]
    · rw [if_neg hk]
      by_cases hd : k = d
      · subst hd
        have hkd : ¬(key = k) := fun h => hk h.symm
        simp [lookupFused, List.find?_cons, hkd]
      · have hbd : (k == d) = false := beq_eq_false_iff_ne.mpr hd
        simp only [lookupFused, List.find?_cons, hbd]
        simpa [lookupFused] using ih

/-- Characterization of one fusion fold when the branch's doc_ids are
distinct: the entry for `d` afterwards is determined by the branch entry
carrying `d` (created if absent, updated if present), and other keys are
untouched. -/
theorem lookupFused_foldl_upsertWith
    (f_upd : RankedResult → FusedScore → FusedScore)
    (f_ini : RankedResult → FusedScore) :
    ∀ (rs : List RankedResult) (m : List (String × FusedScore)) (d : String),
      (rs.map (·.doc_id)).Nodup →
      lookupFused (rs.foldl
        (fun m r => upsertWith (f_upd r) (f_ini r) r.doc_id m) m) d =
        match rs.find? (fun r => r.doc_id == d) with
        | some r =>
          match lookupFused m d with
          | some f => some (f_upd r f)
          | none => some (f_ini r)
        | none => lookupFused m d := by
  intro rs
  induction rs with
  | nil => intro m d _; simp
  | cons r rs ih =>
    intro m d hnd
    have hnotin : r.doc_id ∉ rs.map (·.doc_id) :=
      (List.nodup_cons.mp (by simpa using hnd)).1
    have hnd' : (rs.map (·.doc_id)).Nodup :=
      (List.nodup_cons.mp (by simpa using hnd)).2
    simp only [List.foldl_cons]
    rw [ih _ d hnd']
    by_cases hd : r.doc_id = d
    · subst hd
      have hfind : rs.find? (fun r' => r'.doc_id == r.doc_id) = none := by
        apply List.find?_eq_none.mpr
        intro x hx
        simp only [beq_iff_eq]
        intro hxe
        exact hnotin (hxe ▸ List.mem_map_of_mem _ hx)
      rw [hfind, lookupFused_upsertWith, if_pos rfl]
      have hpred : (r.doc_id == r.doc_id) = true := by simp
      simp [List.find?_cons, hpred]
    · have hbd : (r.doc_id == d) = false := beq_eq_false_iff_ne.mpr hd
      simp only [lookupFused_upsertWith, if_neg hd, List.find?_cons, hbd]

/-- The keys after an upsert: unchanged when the key was present, else the
key is appended. -/
theorem keys_upsertWith (upd : FusedScore → FusedScore) (ini : FusedScore)
    (key : String) :
    ∀ m : List (String × FusedScore),
      (upsertWith upd ini key m).map (·.1) =
        if key ∈ m.map (·.1) then m.map (·.1) else m.map (·.1) ++ [key] := by
  intro m
  induction m with
  | nil => simp [upsertWith]
  | cons kf rest ih =>
    obtain ⟨k, f⟩ := kf
    rw [upsertWith]
    by_cases hk : k = key
    · subst hk; simp
    · rw [if_neg hk]
      have hne : ¬(key = k) := fun h => hk h.symm
      simp only [List.map_cons, ih, List.mem_cons, hne, false_or]
      by_cases hmem : key ∈ rest.map (·.1)
      · simp [hmem]
      · simp [hmem]

/-- Well-formedness of the fusion map: every entry's key is its fused
result's doc_id, and keys are distinct. -/
def WfFused (m : List (String × FusedScore)) : Prop :=
  (∀ kf ∈ m, kf.1 = kf.2.result.doc_id) ∧ (m.map (·.1)).Nodup

/-- An upsert whose update preserves the stored result and whose fresh
entry is keyed by its own doc_id preserves well-formedness. -/
theorem wfFused_upsertWith (upd : FusedScore → FusedScore) (ini : FusedScore)
    (key : String) (hupd : ∀ f, (upd f).result = f.result)
    (hini : ini.result.doc_id = key) :
    ∀ m : List (String × FusedScore), WfFused m →
      WfFused (upsertWith upd ini key m) := by
  intro m
  induction m with
  | nil =>
    intro _
    exact ⟨by simp [upsertWith, hini.symm], by simp [upsertWith]⟩
  | cons kf rest ih =>
    obtain ⟨k, f⟩ := kf
    intro hw
    obtain ⟨hkeys, hnd⟩ := hw
    rw [upsertWith]
    by_cases hk : k = key
    · rw [if_pos hk]
      constructor
      · intro kf' hm
        rcases List.mem_cons.mp hm with rfl | hmem
        · have := hkeys (k, f) (List.mem_cons_self _ _)
          simpa [hupd] using this
        · exact hkeys kf' (List.mem_cons_of_mem _ hmem)
      · simpa using hnd
    · rw [if_neg hk]
      have hknotin : k ∉ rest.map (·.1) :=
        (List.nodup_cons.mp (by simpa using hnd)).1
      have hrest : WfFused rest :=
        ⟨fun kf' h => hkeys kf' (List.mem_cons_of_mem _ h),
         (List.nodup_cons.mp (by simpa using hnd)).2⟩
      obtain ⟨ih1, ih2⟩ := ih hrest
      constructor
      · intro kf' hm
        rcases List.mem_cons.mp hm with rfl | hmem
        · exact hkeys (k, f) (List.mem_cons_self _ _)
        · exact ih1 kf' hmem
      · rw [List.map_cons, keys_upsertWith]
        by_cases hmem : key ∈ rest.map (·.1)
        · rw [if_pos hmem]; simpa using hnd
        · rw [if_neg hmem]
          refine List.nodup_cons.mpr ⟨?_, ?_⟩
          · intro hkin
            rcases List.mem_append.mp hkin with h | h
            · exact hknotin h
            · exact hk (List.mem_singleton.mp h)
          · refine List.Nodup.append hrest.2 (List.nodup_singleton _) ?_
            intro a ha hb
            rw [List.mem_singleton.mp hb] at ha
            exact hmem ha

/-- In a well-formed fusion map, a member entry is what lookup returns. -/
theorem lookupFused_of_mem :
    ∀ m : List (String × FusedScore), (m.map (·.1)).Nodup →
      ∀ k f, (k, f) ∈ m → lookupFused m k = some f := by
  intro m
  induction m with
  | nil => intro _ k f h; simp at h
  | cons kf rest ih =>
    obtain ⟨k', f'⟩ := kf
    intro hnd k f hm
    rcases List.mem_cons.mp hm with heq | hmem
    · cases heq
      simp [lookupFused, List.find?_cons]
    · have hnotin : k' ∉ rest.map (·.1) :=
        (List.nodup_cons.mp (by simpa using hnd)).1
      have hne : k' ≠ k := fun h =>
        hnotin (h ▸ List.mem_map_of_mem (·.1) hmem)
      have hbd : (k' == k) = false := beq_eq_false_iff_ne.mpr hne
      simp only [lookupFused, List.find?_cons, hbd]
      exact ih (List.nodup_cons.mp (by simpa using hnd)).2 k f hmem

/-- Both fusion folds preserve well-formedness. -/
theorem wfFused_foldl (f_upd : RankedResult → FusedScore → FusedScore)
    (f_ini : RankedResult → FusedScore)
    (hupd : ∀ r f, (f_upd r f).result = f.result)
    (hini : ∀ r, (f_ini r).result.doc_id = r.doc_id) :
    ∀ (rs : List RankedResult) (m : List (String × FusedScore)), WfFused m →
      WfFused (rs.foldl
        (fun m r => upsertWith (f_upd r) (f_ini r) r.doc_id m) m) := by
  intro rs
  induction rs with
  | nil => intro m hm; simpa using hm
  | cons r rs ih =>
    intro m hm
    simp only [List.foldl_cons]
    exact ih _ (wfFused_upsertWith _ _ _ (hupd r) (hini r) m hm)

/-- Rank assignment does not change the sequence of doc_ids. -/
theorem map_doc_id_rankResults (l : List BranchDoc) :
    (rankResults l).map (·.doc_id) = l.map (·.doc_id) := by
  rw [rankResults, List.map_map]
  rw [show ((fun r : RankedResult => r.doc_id) ∘ fun p : Nat × BranchDoc =>
    ({ doc_id := p.2.doc_id, path := p.2.path, content := p.2.content
       line_start := p.2.line_start, is_chunk := p.2.is_chunk
       rank := p.1 + 1, score := p.2.score } : RankedResult))
    = (fun b : BranchDoc => b.doc_id) ∘ Prod.snd from rfl]
  rw [← List.map_map, List.enum_map_snd]

/-- A doc_id is absent from a branch iff the ranked lookup finds
nothing. -/
theorem find?_rank_none_iff (docs : List BranchDoc) (d : String) :
    (rankResults docs).find? (fun r => r.doc_id == d) = none ↔
      inBranch docs d = false := by
  rw [List.find?_eq_none, inBranch, List.any_eq_false]
  constructor
  · intro h b hb
    simp only [beq_iff_eq]
    intro hbd
    have hd : d ∈ (rankResults docs).map (·.doc_id) := by
      rw [map_doc_id_rankResults]
      exact hbd ▸ List.mem_map_of_mem _ hb
    obtain ⟨r, hr, hrd⟩ := List.mem_map.mp hd
    exact absurd (by simpa using hrd) (h r hr)
  · intro h r hr
    simp only [beq_iff_eq]
    intro hrd
    have hd : d ∈ docs.map (·.doc_id) := by
      rw [← map_doc_id_rankResults]
      exact hrd ▸ List.mem_map_of_mem _ hr
    obtain ⟨b, hb, hbd⟩ := List.mem_map.mp hd
    exact absurd (by simpa using hbd) (h b hb)

/-- Each RRF term with a positive weight is positive. -/
theorem rrf_term_pos (w : Rat) (n : Nat) (hw : 0 < w) :
    0 < w / (K_RRF + (n : Rat)) := by
  apply div_pos hw
  have hn : (0 : Rat) ≤ (n : Rat) := Nat.cast_nonneg n
  rw [K_RRF]
  linarith

/-- The merge sort used by the fusion yields scores in descending order. -/
theorem pairwise_rrf_sorted (l : List SearchHit) :
    (l.mergeSort fun a b => decide (b.score ≤ a.score)).Pairwise
      (fun a b => b.score ≤ a.score) := by
  have h := @List.sorted_mergeSort SearchHit
    (fun a b : SearchHit => decide (b.score ≤ a.score))
    (fun a b c h1 h2 => by
      simp only [decide_eq_true_eq] at *
      exact le_trans h2 h1)
    (fun a b => by
      simp only [Bool.or_eq_true, decide_eq_true_eq]
      exact le_total b.score a.score)
    l
  exact h.imp (fun hab => by simpa using hab)

/-- The fusion map is well-formed. -/
theorem wfFused_fusionMap (bs vs : List RankedResult) (bw vw : Rat) :
    WfFused (fusionMap bs vs bw vw) := by
  rw [fusionMap]
  simp only [upsertBm25, upsertVector]
  exact wfFused_foldl
    (fun r f => { f with vector_rrf := vw / (K_RRF + (r.rank : Rat)) })
    (fun r => ⟨r, 0, vw / (K_RRF + (r.rank : Rat))⟩)
    (fun r f => rfl) (fun r => rfl) vs _
    (wfFused_foldl
      (fun r f => { f with bm25_rrf := bw / (K_RRF + (r.rank : Rat)) })
      (fun r => ⟨r, bw / (K_RRF + (r.rank : Rat)), 0⟩)
      (fun r f => rfl) (fun r => rfl) bs [] ⟨by simp, by simp⟩)

/-- Full characterization of the fusion map's entry for a doc_id, when
each branch's doc_ids are distinct: both branches present give both RRF
terms, one branch gives its term with the other 0, neither gives no
entry. -/
theorem lookupFused_fusionMap (bs vs : List RankedResult) (bw vw : Rat)
    (hbs : (bs.map (·.doc_id)).Nodup) (hvs : (vs.map (·.doc_id)).Nodup)
    (d : String) :
    lookupFused (fusionMap bs vs bw vw) d =
      match vs.find? (fun r => r.doc_id == d),
          bs.find? (fun r => r.doc_id == d) with
      | some rv, some rb =>
        some ⟨rb, bw / (K_RRF + (rb.rank : Rat)), vw / (K_RRF + (rv.rank : Rat))⟩
      | some rv, none => some ⟨rv, 0, vw / (K_RRF + (rv.rank : Rat))⟩
      | none, some rb => some ⟨rb, bw / (K_RRF + (rb.rank : Rat)), 0⟩
      | none, none => none := by
  rw [fusionMap]
  simp only [upsertBm25, upsertVector]
  rw [lookupFused_foldl_upsertWith _ _ vs _ d hvs]
  simp only [lookupFused_foldl_upsertWith _ _ bs _ d hbs]
  have hnil : lookupFused [] d = none := by simp [lookupFused]
  simp only [hnil]
  cases vs.find? (fun r => r.doc_id == d) <;>
    cases bs.find? (fun r => r.doc_id == d) <;> rfl

/-- Every hybrid hit is the image of a fused entry whose RRF terms equal
the per-branch spec contributions, and whose doc_id appears in at least
one branch. -/
theorem hybrid_hits_analysis (cfg : SearchConfig) (query : String)
    (limitArg : Option Nat) (bmDocs vecDocs : List BranchDoc)
    (hbm : (bmDocs.map (·.doc_id)).Nodup)
    (hvec : (vecDocs.map (·.doc_id)).Nodup) :
    ∀ h ∈ (HybridSearcher.search cfg query limitArg bmDocs vecDocs).hits,
      ∃ f : FusedScore, h = fusedHit query f ∧
        f.bm25_rrf
          = specBranchContribution cfg.bm25_weight bmDocs f.result.doc_id ∧
        f.vector_rrf
          = specBranchContribution cfg.vector_weight vecDocs f.result.doc_id ∧
        (inBranch bmDocs f.result.doc_id = true
          ∨ inBranch vecDocs f.result.doc_id = true) := by
  intro h hm
  simp only [HybridSearcher.search] at hm
  have hm1 := List.mem_of_mem_take hm
  rw [reciprocal_rank_fusion, List.mem_mergeSort] at hm1
  obtain ⟨kf, hkf, hfh⟩ := List.mem_map.mp hm1
  obtain ⟨k, f⟩ := kf
  have hwf := wfFused_fusionMap (rankResults bmDocs) (rankResults vecDocs)
    cfg.bm25_weight cfg.vector_weight
  have hkey : k = f.result.doc_id := hwf.1 (k, f) hkf
  have hlook : lookupFused (fusionMap (rankResults bmDocs)
      (rankResults vecDocs) cfg.bm25_weight cfg.vector_weight) k = some f :=
    lookupFused_of_mem _ hwf.2 k f hkf
  rw [lookupFused_fusionMap _ _ _ _
    (by rwa [map_doc_id_rankResults]) (by rwa [map_doc_id_rankResults]) k]
    at hlook
  refine ⟨f, hfh.symm, ?_⟩
  rw [← hkey]
  cases hV : (rankResults vecDocs).find? (fun r => r.doc_id == k) with
  | none =>
    cases hB : (rankResults bmDocs).find? (fun r => r.doc_id == k) with
    | none => rw [hV, hB] at hlook; simp at hlook
    | some rb =>
      rw [hV, hB] at hlook
      have hf : f = ⟨rb, cfg.bm25_weight / (K_RRF + (rb.rank : Rat)), 0⟩ := by
        simpa using hlook.symm
      have hinb : inBranch bmDocs k = true := by
        cases hib : inBranch bmDocs k with
        | true => rfl
        | false => rw [(find?_rank_none_iff bmDocs k).mpr hib] at hB; cases hB
      refine ⟨?_, ?_, Or.inl hinb⟩
      · rw [hf, specBranchContribution, hB]
      · rw [hf, specBranchContribution, hV]
  | some rv =>
    cases hB : (rankResults bmDocs).find? (fun r => r.doc_id == k) with
    | none =>
      rw [hV, hB] at hlook
      have hf : f = ⟨rv, 0, cfg.vector_weight / (K_RRF + (rv.rank : Rat))⟩ := by
        simpa using hlook.symm
      have hinv : inBranch vecDocs k = true := by
        cases hib : inBranch vecDocs k with
        | true => rfl
        | false => rw [(find?_rank_none_iff vecDocs k).mpr hib] at hV; cases hV
      refine ⟨?_, ?_, Or.inr hinv⟩
      · rw [hf, specBranchContribution, hB]
      · rw [hf, specBranchContribution, hV]
    | some rb =>
      rw [hV, hB] at hlook
      have hf : f = ⟨rb, cfg.bm25_weight / (K_RRF + (rb.rank : Rat)),
          cfg.vector_weight / (K_RRF + (rv.rank : Rat))⟩ := by
        simpa using hlook.symm
      have hinb : inBranch bmDocs k = true := by
        cases hib : inBranch bmDocs k with
        | true => rfl
        | false => rw [(find?_rank_none_iff bmDocs k).mpr hib] at hB; cases hB
      refine ⟨?_, ?_, Or.inl hinb⟩
      · rw [hf, specBranchContribution, hB]
      · rw [hf, specBranchContribution, hV]

/-- C2 amended: in hybrid search, each returned hit's score equals the
sum, over the branches in which its doc_id appeared, of
weight / (60 + rank) with the configured per-branch weight and 1-based
rank (each branch's doc_ids assumed distinct, as ranks are per doc); the
hits are sorted by this score in descending order; and provided both
configured branch weights are positive, match_type is Hybrid when both
branches contributed, Text when only the BM25 branch did, and Semantic
when only the vector branch did. -/
theorem hybrid_rrf_amended (cfg : SearchConfig) (query : String)
    (limitArg : Option Nat) (bmDocs vecDocs : List BranchDoc)
    (hbm : (bmDocs.map (·.doc_id)).Nodup)
    (hvec : (vecDocs.map (·.doc_id)).Nodup) :
    (∀ h ∈ (HybridSearcher.search cfg query limitArg bmDocs vecDocs).hits,
        h.score = specBranchContribution cfg.bm25_weight bmDocs h.doc_id
          + specBranchContribution cfg.vector_weight vecDocs h.doc_id)
    ∧ (HybridSearcher.search cfg query limitArg bmDocs vecDocs).hits.Pairwise
        (fun a b => b.score ≤ a.score)
    ∧ (0 < cfg.bm25_weight → 0 < cfg.vector_weight →
        ∀ h ∈ (HybridSearcher.search cfg query limitArg bmDocs vecDocs).hits,
          h.match_type =
            if inBranch bmDocs h.doc_id then
              (if inBranch vecDocs h.doc_id then MatchType.Hybrid
               else MatchType.Text)
            else MatchType.Semantic) := by
  refine ⟨?_, ?_, ?_⟩
  · intro h hm
    obtain ⟨f, rfl, hb, hv, -⟩ :=
      hybrid_hits_analysis cfg query limitArg bmDocs vecDocs hbm hvec h hm
    have hsc : (fusedHit query f).score = f.bm25_rrf + f.vector_rrf := rfl
    have hdid : (fusedHit query f).doc_id = f.result.doc_id := rfl
    rw [hsc, hdid, hb, hv]
  · simp only [HybridSearcher.search]
    refine List.Pairwise.sublist (List.take_sublist _ _) ?_
    rw [reciprocal_rank_fusion]
    exact pairwise_rrf_sorted _
  · intro hbw hvw h hm
    obtain ⟨f, rfl, hb, hv, hor⟩ :=
      hybrid_hits_analysis cfg query limitArg bmDocs vecDocs hbm hvec h hm
    have hdid : (fusedHit query f).doc_id = f.result.doc_id := rfl
    rw [hdid]
    cases hib : inBranch bmDocs f.result.doc_id with
    | true =>
      obtain ⟨rb, hrb⟩ : ∃ rb, (rankResults bmDocs).find?
          (fun r => r.doc_id == f.result.doc_id) = some rb := by
        cases hfb : (rankResults bmDocs).find?
            (fun r => r.doc_id == f.result.doc_id) with
        | some rb => exact ⟨rb, rfl⟩
        | none => rw [(find?_rank_none_iff _ _).mp hfb] at hib; cases hib
      have hbpos : 0 < f.bm25_rrf := by
        rw [hb, specBranchContribution, hrb]
        exact rrf_term_pos _ _ hbw
      cases hiv : inBranch vecDocs f.result.doc_id with
      | true =>
        obtain ⟨rv, hrv⟩ : ∃ rv, (rankResults vecDocs).find?
            (fun r => r.doc_id == f.result.doc_id) = some rv := by
          cases hfv : (rankResults vecDocs).find?
              (fun r => r.doc_id == f.result.doc_id) with
          | some rv => exact ⟨rv, rfl⟩
          | none => rw [(find?_rank_none_iff _ _).mp hfv] at hiv; cases hiv
        have hvpos : 0 < f.vector_rrf := by
          rw [hv, specBranchContribution, hrv]
          exact rrf_term_pos _ _ hvw
        simp only [fusedHit, decide_eq_true hbpos, decide_eq_true hvpos,
          hib, hiv, if_true]
      | false =>
        have hvzero : f.vector_rrf = 0 := by
          rw [hv, specBranchContribution, (find?_rank_none_iff _ _).mpr hiv]
        have hvdec : decide (f.vector_rrf > 0) = false := by
          rw [hvzero]
          exact decide_eq_false (lt_irrefl 0)
        simp only [fusedHit, decide_eq_true hbpos, hvdec, hib, hiv,
          if_true, Bool.false_eq_true, if_false]
    | false =>
      have hiv : inBranch vecDocs f.result.doc_id = true := by
        rcases hor with h1 | h1
        · rw [hib] at h1; cases h1
        · exact h1
      obtain ⟨rv, hrv⟩ : ∃ rv, (rankResults vecDocs).find?
          (fun r => r.doc_id == f.result.doc_id) = some rv := by
        cases hfv : (rankResults vecDocs).find?
            (fun r => r.doc_id == f.result.doc_id) with
        | some rv => exact ⟨rv, rfl⟩
        | none => rw [(find?_rank_none_iff _ _).mp hfv] at hiv; cases hiv
      have hvpos : 0 < f.vector_rrf := by
        rw [hv, specBranchContribution, hrv]
        exact rrf_term_pos _ _ hvw
      have hbzero : f.bm25_rrf = 0 := by
        rw [hb, specBranchContribution, (find?_rank_none_iff _ _).mpr hib]
      have hbdec : decide (f.bm25_rrf > 0) = false := by
        rw [hbzero]
        exact decide_eq_false (lt_irrefl 0)
      simp only [fusedHit, hbdec, decide_eq_true hvpos, hib,
        Bool.false_eq_true, if_false]

/-- Branch document appearing only in the vector branch for the C2
counterexample. -/
def cexVecDoc : BranchDoc := ⟨"d1", "d1", "x", 1, false, 1⟩

/-- Configuration with vector weight 0 for the C2 counterexample. -/
def cexZeroCfg : SearchConfig := ⟨10, 100, 2, 0, 0⟩

/-- C2 counterexample: with a configured vector weight of 0, the only hit
comes solely from the vector branch, yet its match_type is Text, not
Semantic as the claim requires. -/
theorem hybrid_match_type_counterexample :
    (HybridSearcher.search cexZeroCfg "q" none [] [cexVecDoc]).hits.map
        (·.match_type) = [MatchType.Text]
    ∧ inBranch [] "d1" = false
    ∧ inBranch [cexVecDoc] "d1" = true
    ∧ MatchType.Text ≠ MatchType.Semantic := by
  refine ⟨?_, by decide, by decide, by decide⟩
  with_unfolding_all decide

/-- Demo vector-branch document for the C2 witness. -/
def wVecDoc : BranchDoc := ⟨"d2", "d2", "y", 1, false, 1⟩

/-- Concrete instantiation of the C2 amended theorem. -/
theorem hybrid_rrf_amended_witness :
    (HybridSearcher.search demoConfig "q" none [] [wVecDoc]).hits.Pairwise
      (fun a b => b.score ≤ a.score) :=
  (hybrid_rrf_amended demoConfig "q" none [] [wVecDoc]
    (by decide) (by decide)).2.1

/-- The regex candidate loop also stops at the limit. -/
theorem length_buildRegexHits_le (rmatch : String → Bool) (maxScore : Rat)
    (n : Nat) (cands : List (Rat × StoredDoc)) :
    (buildRegexHits rmatch maxScore n cands).length ≤ n := by
  induction cands generalizing n with
  | nil => simp [buildRegexHits]
  | cons c rest ih =>
    obtain ⟨s, sd⟩ := c
    rw [buildRegexHits]
    split
    next hz => simp [hz]
    next hz =>
      split
      · have := ih (n - 1)
        simp only [List.length_cons]
        omega
      · exact ih n

/-- C10: every search entry point (literal, regex, filtered, hybrid)
returns total = hits.length; literal and regex search additionally report
semantic_hits = 0 and text_hits = hits.length and return at most
min(requested limit, max_limit) hits. -/
theorem search_totals_consistent (cfg : SearchConfig) (query : String)
    (rmatch : String → Bool) (limitArg : Option Nat) (n : Nat)
    (filters : SearchFilters) (ur : Bool)
    (cands : List (Rat × StoredDoc)) (bmDocs vecDocs : List BranchDoc) :
    ((Searcher.search cfg query limitArg cands).total
        = (Searcher.search cfg query limitArg cands).hits.length
      ∧ (Searcher.search cfg query limitArg cands).semantic_hits = 0
      ∧ (Searcher.search cfg query limitArg cands).text_hits
          = (Searcher.search cfg query limitArg cands).hits.length
      ∧ (limitArg = some n →
          (Searcher.search cfg query limitArg cands).hits.length
            ≤ min n cfg.max_limit))
    ∧ ((Searcher.search_regex cfg rmatch limitArg cands).total
        = (Searcher.search_regex cfg rmatch limitArg cands).hits.length
      ∧ (Searcher.search_regex cfg rmatch limitArg cands).semantic_hits = 0
      ∧ (Searcher.search_regex cfg rmatch limitArg cands).text_hits
          = (Searcher.search_regex cfg rmatch limitArg cands).hits.length
      ∧ (limitArg = some n →
          (Searcher.search_regex cfg rmatch limitArg cands).hits.length
            ≤ min n cfg.max_limit))
    ∧ (Searcher.search_filtered cfg query limitArg filters ur rmatch
        cands).total
        = (Searcher.search_filtered cfg query limitArg filters ur rmatch
          cands).hits.length
    ∧ (HybridSearcher.search cfg query limitArg bmDocs vecDocs).total
        = (HybridSearcher.search cfg query limitArg bmDocs vecDocs).hits.length := by
  refine ⟨⟨?_, ?_, ?_, ?_⟩, ⟨?_, ?_, ?_, ?_⟩, ?_, ?_⟩
  · by_cases ht : searchTerms query = [] <;>
      simp [Searcher.search, ht, emptyResult]
  · by_cases ht : searchTerms query = [] <;>
      simp [Searcher.search, ht, emptyResult]
  · by_cases ht : searchTerms query = [] <;>
      simp [Searcher.search, ht, emptyResult]
  · intro hlim
    subst hlim
    by_cases ht : searchTerms query = []
    · simp [Searcher.search, ht, emptyResult]
    · simp only [Searcher.search, if_neg ht, Option.getD_some]
      exact length_buildLiteralHits_le _ _ _ _
  · rfl
  · rfl
  · rfl
  · intro hlim
    subst hlim
    simp only [Searcher.search_regex, Option.getD_some]
    exact length_buildRegexHits_le _ _ _ _
  · cases ur <;> rfl
  · rfl

/-- Concrete instantiation of the C10 theorem at an explicit limit. -/
theorem search_totals_consistent_witness :
    (Searcher.search demoConfig "hello" (some 5) [((2 : Rat), demoDoc)]).hits.length
        ≤ min 5 demoConfig.max_limit
    ∧ (Searcher.search_regex demoConfig (fun _ => true) (some 5)
        [((2 : Rat), demoDoc)]).hits.length ≤ min 5 demoConfig.max_limit :=
  ⟨(search_totals_consistent demoConfig "hello" (fun _ => true) (some 5) 5
      ⟨none, none⟩ false [((2 : Rat), demoDoc)] [] []).1.2.2.2 rfl,
   (search_totals_consistent demoConfig "hello" (fun _ => true) (some 5) 5
      ⟨none, none⟩ false [((2 : Rat), demoDoc)] [] []).2.1.2.2.2 rfl⟩

end Ygrep
